import Mathlib

/-!
# Verification of `rubric_sampling/experiments/datasets.py`

Shallow embedding of the dataset-preparation pipeline of the repository:
vocabulary construction (`create_vocab`), sequence encoding
(`process_programs`), count aggregation (`build_count_map`), frequency
ranking (`build_rank_map_from_count_map`) and rarity classification
(`build_zipf_map`), together with the random-access retrieval of the
orchestrating `CodeOrgDataset` container (`__getitem__` / `__len__`).

Python data is modelled as follows: dictionaries become association lists
(`List (κ × ν)`, insertion order as list order, first-match lookup — keys
are kept distinct exactly where Python dict keys are), fallible Python
statements (failed `assert`, `KeyError`, `IndexError`, attribute lookup on
a missing attribute, subscripting `None`) become `Except PyErr`, and
machine integers become `Int`/`Nat` (no overflow is reachable: Python
integers are unbounded).
-/

namespace RubricSampling

/-- Outcome classification of the Python-level failures that the embedded
code can raise.  `invalidOperation` is the message-carrying assert guarding
vocabulary creation (`"Vocabulary can only be created for training file."`,
the spec's `InvalidOperationError`); `assertionError` is the bare
`assert len(w2i) == len(i2w)`. -/
inductive PyErr where
  | invalidOperation
  | assertionError
  | attributeError
  | keyError
  | indexError
  | typeError
  deriving DecidableEq, Repr

/-- Modelled from the spec: the four reserved tokens `PAD_TOKEN`,
`UNK_TOKEN`, `SOS_TOKEN`, `EOS_TOKEN` are imported from `utils.py`, which
is not part of the sources; the spec only requires four fixed, distinct
reserved tokens.  The exact spellings are immaterial to every claim. -/
def PAD_TOKEN : String := "<pad>"

/-- Modelled from the spec: reserved unknown-token, see `PAD_TOKEN`. -/
def UNK_TOKEN : String := "<unk>"

/-- Modelled from the spec: reserved start-token, see `PAD_TOKEN`. -/
def SOS_TOKEN : String := "<sos>"

/-- Modelled from the spec: reserved end-token, see `PAD_TOKEN`. -/
def EOS_TOKEN : String := "<eos>"

/-- Modelled from the spec: `ZIPF_CLASS` is a mapping from the rarity-class
names `head`/`body`/`tail` to distinct numeric codes, imported from
`utils.py` (not in the sources).  Only distinctness of the three codes
matters to the claims. -/
def ZIPF_CLASS_head : Nat := 0

/-- Modelled from the spec: numeric code of the `body` rarity class. -/
def ZIPF_CLASS_body : Nat := 1

/-- Modelled from the spec: numeric code of the `tail` rarity class. -/
def ZIPF_CLASS_tail : Nat := 2

/-- Helper of `pySplit`: walk the characters, collecting the current chunk
in reverse; whitespace closes a chunk, empty chunks are dropped. -/
def pySplitChars : List Char → List Char → List String
  | [], cur => if cur.isEmpty then [] else [String.mk cur.reverse]
  | c :: rest, cur =>
    if c.isWhitespace then
      if cur.isEmpty then pySplitChars rest []
      else String.mk cur.reverse :: pySplitChars rest []
    else pySplitChars rest (c :: cur)

/-- Python's `str.split()` with no argument: split on runs of whitespace,
dropping empty chunks. -/
def pySplit (s : String) : List String :=
  pySplitChars s.toList []

/-- Python statement `d[k] = v` on a dict modelled as an association list: an existing
key is overwritten in place (its position is kept), a new key is appended. -/
def pyDictSet {κ ν : Type} [BEq κ] (d : List (κ × ν)) (k : κ) (v : ν) :
    List (κ × ν) :=
  if d.any fun kv => kv.1 == k then
    d.map fun kv => if kv.1 == k then (k, v) else kv
  else
    d ++ [(k, v)]

/-- Python statement `counter[k] += 1` on an order-preserving counter (`OrderedCounter.update`
for a single token): bump an existing key in place, append a new key with
count 1.  First-seen key order is preserved. -/
def bumpCount : List (String × Nat) → String → List (String × Nat)
  | [], k => [(k, 1)]
  | (k', c) :: rest, k =>
    if k' = k then (k', c + 1) :: rest else (k', c) :: bumpCount rest k

/-- Python statement `count_map[k] += v` on a `defaultdict(lambda: 0)`: accumulate into an
existing key in place, or append a fresh key holding `v` (`0 + v`). -/
def addToKey : List (String × Int) → String → Int → List (String × Int)
  | [], k, v => [(k, v)]
  | (k', v') :: rest, k, v =>
    if k' = k then (k', v' + v) :: rest else (k', v') :: addToKey rest k v

/-- Total lookup in an association list with Python-`defaultdict` default
`0`. -/
def lookupD (m : List (String × Int)) (s : String) : Int :=
  (List.lookup s m).getD 0

/-- The `vocab` dictionary: token→index and index→token maps
(`dict(w2i=..., i2w=...)`). -/
structure Vocab where
  w2i : List (String × Nat)
  i2w : List (Nat × String)
  deriving DecidableEq, Repr

/-- The closing statements of `create_vocab` (lines 121–124): the bare
`assert len(w2i) == len(i2w)`, then `self.vocab = dict(w2i=w2i, i2w=i2w)`
and the implicit `return None`. -/
def vocabAssert (v : Vocab) : Except PyErr (Vocab × Option Vocab) :=
  if v.w2i.length = v.i2w.length then .ok (v, none) else .error .assertionError

/-- Method `CodeOrgDataset.create_vocab` (datasets.py lines 100–124), embedded
statement by statement.

* `split` is `self.split`; the first assert carries the message
  `"Vocabulary can only be created for training file."` and is modelled as
  `PyErr.invalidOperation`.
* `selfData` models the attribute lookup `self.data`: the method iterates
  over `self.data`, an attribute that `__init__` never assigns (it passes
  `self.raw_programs` as the ignored `data` parameter), so the lookup is
  fallible; `none` raises `AttributeError`.
* On success the method stores `dict(w2i=w2i, i2w=i2w)` into `self.vocab`
  and falls off the end, returning Python `None`.  The result pair is
  (value stored into `self.vocab`, value returned to the caller). -/
def create_vocab (split : String) (selfData : Option (List String))
    (minOcc : Nat) : Except PyErr (Vocab × Option Vocab) :=
  if split = "train" then
    match selfData with
    | none => .error .attributeError
    | some data =>
      let specials := [PAD_TOKEN, UNK_TOKEN, SOS_TOKEN, EOS_TOKEN]
      let start : List (String × Nat) × List (Nat × String) :=
        specials.foldl
          (fun m st => (pyDictSet m.1 st m.1.length, pyDictSet m.2 m.1.length st))
          ([], [])
      let w2c : List (String × Nat) :=
        data.foldl (fun acc program => (pySplit program).foldl bumpCount acc) []
      let final : List (String × Nat) × List (Nat × String) :=
        w2c.foldl
          (fun m wc =>
            if minOcc < wc.2 then
              (pyDictSet m.1 wc.1 m.1.length, pyDictSet m.2 m.1.length wc.1)
            else m)
          start
      vocabAssert { w2i := final.1, i2w := final.2 }
  else .error .invalidOperation

/-- The vocabulary-initialization step of `CodeOrgDataset.__init__`
(lines 89–93): when `vocab` is `None` it runs
`self.vocab = self.create_vocab(self.raw_programs)` and then subscripts
`self.vocab['w2i']`.  `create_vocab` returns Python `None`, so the
subscript on a successful call is a `TypeError`; the result is the value
`self.w2i`/`self.i2w` are read from, i.e. the effective vocabulary of the
dataset.  The `data` argument is the one `__init__` passes; the method body
ignores it (it reads `self.data`, which is never assigned). -/
def initVocab (split : String) (data : List String) (vocabArg : Option Vocab)
    (minOcc : Nat) : Except PyErr Vocab :=
  match vocabArg with
  | some v => .ok v
  | none =>
    match create_vocab split none minOcc with
    | .error e => .error e
    | .ok (_, ret) =>
      match ret with
      | none => .error .typeError
      | some v => .ok v

/-- The body of the per-program loop of `CodeOrgDataset.process_programs`
(lines 130–140): tokenize, truncate to `max_seq_len` tokens, wrap in
SOS/EOS, right-pad to `max_seq_len + 2` with PAD, then map every token
through `self.w2i.get(token, self.w2i[UNK_TOKEN])`.  The dict lookup
`self.w2i[UNK_TOKEN]` raises `KeyError` when UNK is missing (the list
comprehension is never empty, SOS is always present, so the default
argument is always evaluated).  `w2i` abstracts the token→index dict as a
partial function. -/
def process_program (w2i : String → Option Nat) (maxSeqLen : Nat)
    (program : String) : Except PyErr (List Nat × Nat) :=
  match w2i UNK_TOKEN with
  | none => .error .keyError
  | some unkIdx =>
    let tokens := [SOS_TOKEN] ++ (pySplit program).take maxSeqLen ++ [EOS_TOKEN]
    let length := tokens.length
    let padded := tokens ++ List.replicate (maxSeqLen + 2 - length) PAD_TOKEN
    .ok (padded.map (fun t => (w2i t).getD unkIdx), length)

/-- Method `CodeOrgDataset.process_programs` (lines 126–142): the loop over all
programs, collecting `(seqs, lengths)`. -/
def process_programs (w2i : String → Option Nat) (maxSeqLen : Nat)
    (data : List String) : Except PyErr (List (List Nat) × List Nat) :=
  match data with
  | [] => .ok ([], [])
  | program :: rest =>
    match process_program w2i maxSeqLen program with
    | .error e => .error e
    | .ok (seq, len) =>
      match process_programs w2i maxSeqLen rest with
      | .error e => .error e
      | .ok (seqs, lens) => .ok (seq :: seqs, len :: lens)

/-- The loop of `CodeOrgDataset.build_count_map` (lines 154–164): iterate
over the entries of `sources`, canonicalize each AST and accumulate
`counts[i]` into a `defaultdict(lambda: 0)`.  `counts[i]` is a plain dict
subscript: a missing id raises `KeyError`.  The external canonicalization
(`removeColors` + `flatten_ast` + `' '.join`, from `utils.py`, outside the
sources and declared out of scope by the spec) is abstracted as the pure
function `canon`. -/
def build_count_map_go {α : Type} (canon : α → String)
    (counts : List (Nat × Int)) :
    List (Nat × α) → List (String × Int) → Except PyErr (List (String × Int))
  | [], acc => .ok acc
  | (i, ast) :: rest, acc =>
    match List.lookup i counts with
    | none => .error .keyError
    | some c => build_count_map_go canon counts rest (addToKey acc (canon ast) c)

/-- Method `CodeOrgDataset.build_count_map` (lines 147–164): aggregate the counts
of all ids of `sources` by canonical program string.  The final
`dict(count_map)` is the identity on the association-list model. -/
def build_count_map {α : Type} (canon : α → String) (sources : List (Nat × α))
    (counts : List (Nat × Int)) : Except PyErr (List (String × Int)) :=
  build_count_map_go canon counts sources []

/-- The comparison underlying `np.argsort` on the count array: ascending by
count, equal counts ordered by original position.  For arrays in numpy's
stable regime (the insertion-sort path taken below the quicksort cutoff,
and `kind='stable'`) this is exactly the argsort order, since a stable
ascending sort of values is the ascending lexicographic sort of
(value, original index) pairs. -/
def rankLE (counts : List Int) (i j : Nat) : Prop :=
  counts.getD i 0 < counts.getD j 0 ∨ (counts.getD i 0 = counts.getD j 0 ∧ i ≤ j)

instance (counts : List Int) : DecidableRel (rankLE counts) := fun i j => by
  unfold rankLE
  exact inferInstance

instance (counts : List Int) : IsTotal Nat (rankLE counts) :=
  ⟨by intro a b; unfold rankLE; omega⟩

instance (counts : List Int) : IsTrans Nat (rankLE counts) :=
  ⟨by intro a b c; unfold rankLE; omega⟩

/-- Expression `np.argsort(counts)` (line 185), modelled as the stable ascending
argsort: the index list `[0, ..., n-1]` sorted by `rankLE`. -/
def argsortAsc (counts : List Int) : List Nat :=
  List.insertionSort (rankLE counts) (List.range counts.length)

/-- The permuted program array `programs[ranks]` of
`build_rank_map_from_count_map` (lines 182–187): the programs of
`count_map` listed most-frequent-first (reversed ascending argsort of the
count array). -/
def sortedPrograms (count_map : List (String × Int)) : List String :=
  ((argsortAsc (count_map.map Prod.snd)).reverse).map
    fun i => (count_map.map Prod.fst).getD i ""

/-- Function `build_rank_map_from_count_map` (lines 181–188): list the programs and
counts of `count_map`, argsort the counts and reverse (most frequent
first), permute the program array accordingly, and zip with
`np.arange(len(programs))` into the rank dict. -/
def build_rank_map_from_count_map (count_map : List (String × Int)) :
    List (String × Nat) :=
  (sortedPrograms count_map).zip (List.range (sortedPrograms count_map).length)

/-- The per-position effect of the three masked assignments of
`build_zipf_map` (lines 197–201): start at BODY, overwrite by TAIL where
the count is below 3, then overwrite by HEAD where the rank is at most
20 — so the final class is HEAD when rank ≤ 20, else TAIL when count < 3,
else BODY. -/
def zipfClass (c : Int) (r : Nat) : Nat :=
  if r ≤ 20 then ZIPF_CLASS_head
  else if c < 3 then ZIPF_CLASS_tail
  else ZIPF_CLASS_body

/-- Function `build_zipf_map` (lines 191–203): elementwise over the parallel arrays
`count_map.keys()`, `count_map.values()` and `rank_map.values()`, apply
the masked assignments and zip the program array with the class array into
a dict.  (`np.ones(...) * body` produces floats; the class codes are small
integers, so `Nat` is exact.) -/
def build_zipf_map (count_map : List (String × Int))
    (rank_map : List (String × Nat)) : List (String × Nat) :=
  (count_map.map Prod.fst).zip
    (List.zipWith zipfClass (count_map.map Prod.snd) (rank_map.map Prod.snd))

/-- Lines 85–87 of `__init__` composed:
`build_zipf_map(count_map, build_rank_map_from_count_map(count_map))`.
CPython 2 enumerates two dicts holding the same key set in the same
(hash-determined) order, and `build_zipf_map` relies on exactly that to
align `rank_map.values()` with `count_map.keys()`; the model realizes the
shared enumeration order as `count_map`'s key order, so the rank dict is
re-enumerated by `count_map`'s keys before the elementwise pass. -/
def alignedRanks (count_map : List (String × Int)) : List Nat :=
  count_map.map fun pc =>
    (List.lookup pc.1 (build_rank_map_from_count_map count_map)).getD 0

/-- The rank dict re-enumerated in `count_map`'s key order; see
`zipf_map_of_count_map`. -/
def zipf_map_of_count_map (count_map : List (String × Int)) :
    List (String × Nat) :=
  build_zipf_map count_map
    ((count_map.map Prod.fst).zip (alignedRanks count_map))

/-- The fully constructed `CodeOrgDataset` state: the fields that
`__getitem__`/`__len__` read.  `labels` is `self.labels` when
`self.raw_labels` was not `None` (a state no real construction reaches,
since `process_labels` raises `NotImplementedError`). -/
structure CodeOrgDataset where
  sequences : List (List Nat)
  lengths : List Nat
  raw_programs : List String
  zipf_map : List (String × Nat)
  labels : Option (List Nat)
  deriving DecidableEq, Repr

/-- The index adjustment of Python list subscription: a negative index
counts from the end. -/
def pyWrap (n : Nat) (i : Int) : Int :=
  if i < 0 then i + n else i

/-- Python list subscription `l[i]` with an `int` index: indices in
`[0, len)` address directly, indices in `[-len, 0)` address from the end,
anything else raises `IndexError`. -/
def pyGet {β : Type} (l : List β) (i : Int) : Except PyErr β :=
  if h : 0 ≤ pyWrap l.length i ∧ pyWrap l.length i < (l.length : Int) then
    .ok (l.get ⟨(pyWrap l.length i).toNat, by omega⟩)
  else .error .indexError

/-- Method `CodeOrgDataset.__len__` (lines 166–167). -/
def CodeOrgDataset.size (ds : CodeOrgDataset) : Nat :=
  ds.sequences.length

/-- Method `CodeOrgDataset.__getitem__` (lines 169–178): fetch
`self.sequences[index]`, `self.lengths[index]`, look the raw program
string up in `self.zipf_map` (a plain dict subscript: `KeyError` when the
raw string is not a key), and return the record, with the label drawn from
`self.labels[index]` when labels are present.  The `torch`/`numpy` tensor
conversion of the sequence is representation-only and out of scope per the
spec; the record carries the index list itself. -/
def CodeOrgDataset.getitem (ds : CodeOrgDataset) (index : Int) :
    Except PyErr (List Nat × Nat × Option Nat × Nat) :=
  match pyGet ds.sequences index with
  | .error e => .error e
  | .ok seq =>
    match pyGet ds.lengths index with
    | .error e => .error e
    | .ok length =>
      match pyGet ds.raw_programs index with
      | .error e => .error e
      | .ok prog =>
        match List.lookup prog ds.zipf_map with
        | none => .error .keyError
        | some zipf =>
          match ds.labels with
          | none => .ok (seq, length, none, zipf)
          | some labs =>
            match pyGet labs index with
            | .error e => .error e
            | .ok lab => .ok (seq, length, some lab, zipf)

/-! ## Demonstration data for witnesses -/

/-- A small concrete vocabulary function for witnesses: the four reserved
tokens at indices 0–3 and one ordinary token `"a"`. -/
def demoW2i : String → Option Nat := fun t =>
  if t = PAD_TOKEN then some 0
  else if t = UNK_TOKEN then some 1
  else if t = SOS_TOKEN then some 2
  else if t = EOS_TOKEN then some 3
  else if t = "a" then some 4
  else none

/-! ## Claims about vocabulary construction (C1, C8) -/

/-- C1 (code bug): constructing the dataset with `vocab=None` on the
training split never produces the claimed Vocabulary.  `create_vocab`
iterates over `self.data`, an attribute `__init__` never assigns, so the
call raises `AttributeError` for every program list and every `min_occ`;
the claimed reserved-token/threshold vocabulary is never returned (and even
past that point, `create_vocab` returns `None`, which `__init__` stores
into `self.vocab` before subscripting it). -/
theorem initVocab_train_vocabNone_attributeError (data : List String)
    (minOcc : Nat) :
    initVocab "train" data none minOcc = .error .attributeError := rfl

/-- C8: `create_vocab` fails with the `InvalidOperationError`-equivalent
(the guarded assert `"Vocabulary can only be created for training file."`)
exactly when the split is not `"train"`; on the training split that error
is never raised, whatever the object state and `min_occ`. -/
theorem create_vocab_invalidOperation_iff (split : String)
    (selfData : Option (List String)) (minOcc : Nat) :
    create_vocab split selfData minOcc = .error .invalidOperation ↔
      split ≠ "train" := by
  have hva : ∀ v : Vocab, vocabAssert v ≠ .error .invalidOperation := by
    intro v
    unfold vocabAssert
    split <;> simp
  unfold create_vocab
  by_cases h : split = "train"
  · subst h
    rw [if_pos rfl]
    simp only [ne_eq, not_true_eq_false, iff_false]
    cases selfData with
    | none => intro hc; simp at hc
    | some data => intro hc; exact absurd hc (hva _)
  · simp [h]

/-! ## Claims about sequence encoding (C2, C3) -/

/-- C2: for every program string and every `max_seq_len`, under any
vocabulary containing UNK and PAD, encoding succeeds and returns exactly
`max_seq_len + 2` indices with
`true_length = min(#tokens, max_seq_len) + 2 ∈ [2, max_seq_len + 2]`, and
every position at or beyond `true_length` holds PAD's index. -/
theorem process_program_shape (w2i : String → Option Nat) (maxSeqLen : Nat)
    (program : String) (u p : Nat)
    (hU : w2i UNK_TOKEN = some u) (hP : w2i PAD_TOKEN = some p) :
    ∃ seq len, process_program w2i maxSeqLen program = .ok (seq, len) ∧
      seq.length = maxSeqLen + 2 ∧
      len = min (pySplit program).length maxSeqLen + 2 ∧
      2 ≤ len ∧ len ≤ maxSeqLen + 2 ∧
      ∀ i, len ≤ i → i < maxSeqLen + 2 → seq.getD i 0 = p := by
  have hrun : process_program w2i maxSeqLen program =
      .ok ((([SOS_TOKEN] ++ (pySplit program).take maxSeqLen ++ [EOS_TOKEN]) ++
              List.replicate
                (maxSeqLen + 2 -
                  ([SOS_TOKEN] ++ (pySplit program).take maxSeqLen ++ [EOS_TOKEN]).length)
                PAD_TOKEN).map (fun t => (w2i t).getD u),
            ([SOS_TOKEN] ++ (pySplit program).take maxSeqLen ++ [EOS_TOKEN]).length) := by
    simp only [process_program, hU]
  have htklen :
      ([SOS_TOKEN] ++ (pySplit program).take maxSeqLen ++ [EOS_TOKEN]).length =
        min (pySplit program).length maxSeqLen + 2 := by
    simp only [List.length_append, List.length_take, List.length_cons,
      List.length_nil]
    omega
  refine ⟨_, _, hrun, ?_, htklen, ?_, ?_, ?_⟩
  · simp only [List.length_map, List.length_append, List.length_replicate, htklen]
    omega
  · omega
  · omega
  · intro i h1 h2
    have hilt : i < ((([SOS_TOKEN] ++ (pySplit program).take maxSeqLen ++ [EOS_TOKEN]) ++
        List.replicate
          (maxSeqLen + 2 -
            ([SOS_TOKEN] ++ (pySplit program).take maxSeqLen ++ [EOS_TOKEN]).length)
          PAD_TOKEN).map (fun t => (w2i t).getD u)).length := by
      simp only [List.length_map, List.length_append, List.length_replicate, htklen]
      omega
    have hle : ([SOS_TOKEN] ++ (pySplit program).take maxSeqLen ++ [EOS_TOKEN]).length ≤ i :=
      h1
    rw [List.getD_eq_getElem?_getD, List.getElem?_eq_getElem hilt, Option.getD_some,
      List.getElem_map, List.getElem_append_right hle]
    simp [List.getElem_replicate, hP]

/-- C2 witness: the shape theorem evaluated at the demo vocabulary,
`max_seq_len = 3` and program `"a b"`. -/
theorem process_program_shape_demo :
    ∃ seq len, process_program demoW2i 3 "a b" = .ok (seq, len) ∧
      seq.length = 3 + 2 ∧
      len = min (pySplit "a b").length 3 + 2 ∧
      2 ≤ len ∧ len ≤ 3 + 2 ∧
      ∀ i, len ≤ i → i < 3 + 2 → seq.getD i 0 = 0 :=
  process_program_shape demoW2i 3 "a b" 1 0 rfl rfl

/-- C3: a program with more than `max_seq_len` whitespace tokens is
truncated to its first `max_seq_len` tokens: the encoding succeeds with
`true_length = max_seq_len + 2` and content
`SOS :: (first max_seq_len tokens mapped through the vocabulary) ++ [EOS]`
(no padding), with every out-of-vocabulary token mapped to UNK's index
rather than failing. -/
theorem process_program_truncation (w2i : String → Option Nat)
    (maxSeqLen : Nat) (program : String) (u s e : Nat)
    (hU : w2i UNK_TOKEN = some u) (hS : w2i SOS_TOKEN = some s)
    (hE : w2i EOS_TOKEN = some e)
    (hLong : maxSeqLen < (pySplit program).length) :
    process_program w2i maxSeqLen program =
      .ok (s :: ((pySplit program).take maxSeqLen).map (fun t => (w2i t).getD u)
              ++ [e],
           maxSeqLen + 2) ∧
      ∀ t, w2i t = none → (w2i t).getD u = u := by
  constructor
  · have htklen :
        (SOS_TOKEN :: ((pySplit program).take maxSeqLen ++ [EOS_TOKEN])).length =
          maxSeqLen + 2 := by
      simp only [List.length_append, List.length_take, List.length_cons,
        List.length_nil]
      omega
    simp only [process_program, hU, List.cons_append, List.nil_append, htklen,
      Nat.sub_self, List.replicate_zero, List.append_nil, List.map_append,
      List.map_cons, List.map_nil, hS, hE, Option.getD_some]
  · intro t ht
    rw [ht]
    rfl

/-- C3 witness: truncation at `max_seq_len = 1` on the three-token program
`"a b c"` under the demo vocabulary. -/
theorem process_program_truncation_demo :
    process_program demoW2i 1 "a b c" =
      .ok (2 :: ((pySplit "a b c").take 1).map (fun t => (demoW2i t).getD 1)
              ++ [3],
           1 + 2) ∧
      ∀ t, demoW2i t = none → (demoW2i t).getD 1 = 1 :=
  process_program_truncation demoW2i 1 "a b c" 1 2 3 rfl rfl rfl (by decide)

/-! ## Helper lemmas for ranking and classification -/

/-- First-match lookup of the `k`-th key of a duplicate-free association
list built by zipping keys with values finds the `k`-th value. -/
theorem lookup_zip {β : Type} :
    ∀ (ps : List String) (vs : List β), ps.Nodup →
      ∀ (k : Nat) (hk : k < ps.length) (hkv : k < vs.length),
        List.lookup ps[k] (ps.zip vs) = some vs[k]
  | [], _, _, k, hk, _ => by simp at hk
  | p :: ps', v :: vs', hnd, 0, hk, hkv => by simp
  | p :: ps', v :: vs', hnd, k + 1, hk, hkv => by
    obtain ⟨hpm, hnd'⟩ := List.nodup_cons.mp hnd
    have hk' : k < ps'.length := by simpa using hk
    have hkv' : k < vs'.length := by simpa using hkv
    have hne : (ps'[k] == p) = false := by
      rw [beq_eq_false_iff_ne]
      intro heq
      exact hpm (heq ▸ List.getElem_mem hk')
    have : (p :: ps')[k + 1] = ps'[k] := rfl
    rw [this, List.zip_cons_cons, List.lookup_cons, hne]
    exact lookup_zip ps' vs' hnd' k hk' hkv'

/-- Relation `rankLE` is antisymmetric. -/
theorem rankLE_antisymm (counts : List Int) {a b : Nat}
    (h1 : rankLE counts a b) (h2 : rankLE counts b a) : a = b := by
  unfold rankLE at h1 h2
  omega

/-- In a duplicate-free list sorted by an antisymmetric total relation,
position order coincides with the relation. -/
theorem sorted_le_iff {r : Nat → Nat → Prop}
    (hanti : ∀ a b, r a b → r b a → a = b)
    (htot : ∀ a b, r a b ∨ r b a)
    {l : List Nat} (hs : l.Pairwise r) (hnd : l.Nodup)
    {a b : Nat} (ha : a < l.length) (hb : b < l.length) :
    a ≤ b ↔ r l[a] l[b] := by
  constructor
  · intro hab
    rcases Nat.eq_or_lt_of_le hab with heq | hlt
    · subst heq
      exact (htot l[a] l[a]).elim id id
    · exact List.pairwise_iff_getElem.mp hs a b ha hb hlt
  · intro hr
    by_contra hab
    have hba : b < a := Nat.lt_of_not_le hab
    have hr' : r l[b] l[a] := List.pairwise_iff_getElem.mp hs b a hb ha hba
    have : a = b := hnd.getElem_inj_iff.mp (hanti _ _ hr hr')
    omega

/-- The rank dict resolves the `i`-th listed program of `count_map` to the
position, in the reversed argsort, at which the index `i` sits. -/
theorem rank_lookup (cm : List (String × Int))
    (hnd : (cm.map Prod.fst).Nodup) (i : Fin cm.length) :
    ∃ (ri : Nat) (hri : ri < ((argsortAsc (cm.map Prod.snd)).reverse).length),
      List.lookup (cm.get i).1 (build_rank_map_from_count_map cm) = some ri ∧
      ((argsortAsc (cm.map Prod.snd)).reverse)[ri] = (i : Nat) := by
  classical
  have hicm : (i : Nat) < cm.length := i.isLt
  have hperm : List.Perm (argsortAsc (cm.map Prod.snd))
      (List.range (cm.map Prod.snd).length) := List.perm_insertionSort _ _
  have hclen : (cm.map Prod.snd).length = cm.length := by simp
  have hslen : (argsortAsc (cm.map Prod.snd)).length = cm.length := by
    rw [hperm.length_eq, List.length_range, hclen]
  have hsnod : (argsortAsc (cm.map Prod.snd)).Nodup :=
    hperm.symm.nodup (List.nodup_range _)
  have hrlen : ((argsortAsc (cm.map Prod.snd)).reverse).length = cm.length := by
    rw [List.length_reverse, hslen]
  have hrnod : ((argsortAsc (cm.map Prod.snd)).reverse).Nodup :=
    List.nodup_reverse.mpr hsnod
  have hmem : (i : Nat) ∈ (argsortAsc (cm.map Prod.snd)).reverse := by
    rw [List.mem_reverse, hperm.mem_iff, List.mem_range, hclen]
    exact hicm
  obtain ⟨ri, hri, hget⟩ := List.getElem_of_mem hmem
  have hmemlt : ∀ x ∈ (argsortAsc (cm.map Prod.snd)).reverse, x < cm.length := by
    intro x hx
    rw [List.mem_reverse, hperm.mem_iff, List.mem_range, hclen] at hx
    exact hx
  have hplen : (cm.map Prod.fst).length = cm.length := by simp
  have hgetD : ∀ (x : Nat) (hx : x < (cm.map Prod.fst).length),
      (cm.map Prod.fst).getD x "" = (cm.map Prod.fst)[x] := by
    intro x hx
    rw [List.getD_eq_getElem?_getD, List.getElem?_eq_getElem hx, Option.getD_some]
  have hspnod : (sortedPrograms cm).Nodup := by
    refine List.Nodup.map_on ?_ hrnod
    intro x hx y hy hxy
    have hxl : x < (cm.map Prod.fst).length := by
      rw [hplen]
      exact hmemlt x hx
    have hyl : y < (cm.map Prod.fst).length := by
      rw [hplen]
      exact hmemlt y hy
    rw [hgetD x hxl, hgetD y hyl] at hxy
    exact hnd.getElem_inj_iff.mp hxy
  have hsplen : (sortedPrograms cm).length = cm.length := by
    rw [sortedPrograms, List.length_map, hrlen]
  have hrisp : ri < (sortedPrograms cm).length := by omega
  have hil : (i : Nat) < (cm.map Prod.fst).length := by omega
  have hspget : (sortedPrograms cm)[ri] = (cm.get i).1 := by
    simp only [sortedPrograms, List.getElem_map]
    rw [hget, hgetD _ hil]
    simp only [List.getElem_map]
    rfl
  refine ⟨ri, hri, ?_, hget⟩
  have hrirange : ri < (List.range (sortedPrograms cm).length).length := by
    rw [List.length_range]
    omega
  have hlkp := lookup_zip (sortedPrograms cm)
    (List.range (sortedPrograms cm).length) hspnod ri hrisp hrirange
  rw [hspget] at hlkp
  have hdef : build_rank_map_from_count_map cm =
      (sortedPrograms cm).zip (List.range (sortedPrograms cm).length) := rfl
  rw [hdef, hlkp, List.getElem_range]

/-! ## Claims about ranking and rarity classification (C4, C5, C6) -/

/-- C6 counterexample: for the count map `{A: 5, B: 5}` listed with `A`
first, the code assigns rank 0 to `B` and rank 1 to `A` — equal counts do
NOT keep the relative order in which they appeared (the ascending stable
argsort is reversed, which reverses ties), refuting the claimed stable
tie-break. -/
theorem build_rank_map_ties_reversed :
    List.lookup "A" (build_rank_map_from_count_map [("A", 5), ("B", 5)]) =
        some 1 ∧
      List.lookup "B" (build_rank_map_from_count_map [("A", 5), ("B", 5)]) =
        some 0 := by decide

/-- C6 amended: the rank map is total on the listed programs and orders
them by descending count, with rank 0 going to a maximal-count program;
programs with EQUAL counts receive ranks in the REVERSE of their listed
order (the stable ascending argsort is reversed wholesale).  The ranking
is a pure function of the count map, hence reproducible across runs. -/
theorem build_rank_map_rank_order (cm : List (String × Int))
    (hnd : (cm.map Prod.fst).Nodup) (i j : Fin cm.length) :
    ∃ ri rj,
      List.lookup (cm.get i).1 (build_rank_map_from_count_map cm) = some ri ∧
      List.lookup (cm.get j).1 (build_rank_map_from_count_map cm) = some rj ∧
      ri < cm.length ∧
      (ri ≤ rj ↔
        ((cm.get j).2 < (cm.get i).2 ∨
          ((cm.get j).2 = (cm.get i).2 ∧ (j : Nat) ≤ (i : Nat)))) := by
  classical
  obtain ⟨ri, hri, hlkpi, hgeti⟩ := rank_lookup cm hnd i
  obtain ⟨rj, hrj, hlkpj, hgetj⟩ := rank_lookup cm hnd j
  have hperm : List.Perm (argsortAsc (cm.map Prod.snd))
      (List.range (cm.map Prod.snd).length) := List.perm_insertionSort _ _
  have hsnod : (argsortAsc (cm.map Prod.snd)).Nodup :=
    hperm.symm.nodup (List.nodup_range _)
  have hsorted :
      (argsortAsc (cm.map Prod.snd)).Pairwise (rankLE (cm.map Prod.snd)) :=
    List.sorted_insertionSort _ _
  have hrevsorted : ((argsortAsc (cm.map Prod.snd)).reverse).Pairwise
      (fun a b => rankLE (cm.map Prod.snd) b a) :=
    List.pairwise_reverse.mpr hsorted
  have hrevnod : ((argsortAsc (cm.map Prod.snd)).reverse).Nodup :=
    List.nodup_reverse.mpr hsnod
  have hiff := @sorted_le_iff (fun a b => rankLE (cm.map Prod.snd) b a)
    (fun a b h1 h2 => rankLE_antisymm (cm.map Prod.snd) h2 h1)
    (fun a b => total_of (rankLE (cm.map Prod.snd)) b a)
    ((argsortAsc (cm.map Prod.snd)).reverse) hrevsorted hrevnod
    ri rj hri hrj
  rw [hgeti, hgetj] at hiff
  have hcget : ∀ k : Fin cm.length,
      (cm.map Prod.snd).getD (k : Nat) 0 = (cm.get k).2 := by
    intro k
    have hk : (k : Nat) < (cm.map Prod.snd).length := by
      rw [List.length_map]
      exact k.isLt
    rw [List.getD_eq_getElem?_getD, List.getElem?_eq_getElem hk,
      Option.getD_some, List.getElem_map]
    rfl
  have hrilt : ri < cm.length := by
    have h1 : ((argsortAsc (cm.map Prod.snd)).reverse).length = cm.length := by
      rw [List.length_reverse, hperm.length_eq, List.length_range,
        List.length_map]
    omega
  refine ⟨ri, rj, hlkpi, hlkpj, hrilt, ?_⟩
  rw [hiff]
  unfold rankLE
  rw [hcget i, hcget j]

/-- C6 amended witness: the ordering theorem applied to the two-program
count map `{A: 5, B: 5}` at positions 0 and 1. -/
theorem build_rank_map_rank_order_demo :
    ∃ ri rj,
      List.lookup "A" (build_rank_map_from_count_map [("A", 5), ("B", 5)]) =
        some ri ∧
      List.lookup "B" (build_rank_map_from_count_map [("A", 5), ("B", 5)]) =
        some rj ∧
      ri < 2 ∧
      (ri ≤ rj ↔ ((5 : Int) < 5 ∨ ((5 : Int) = 5 ∧ 1 ≤ 0))) :=
  build_rank_map_rank_order [("A", 5), ("B", 5)] (by decide)
    ⟨0, by decide⟩ ⟨1, by decide⟩

/-- C4: for every count map (distinct keys) and the rank map derived from
it, every listed program receives exactly one rarity class, and that class
is HEAD when its rank is at most 20, otherwise TAIL when its count is
strictly below 3, otherwise BODY — the HEAD rule overrides the TAIL rule.
(The alignment of `rank_map.values()` with `count_map.keys()` is the
shared-enumeration-order property of CPython 2 dicts over one key set,
realized in `zipf_map_of_count_map`.) -/
theorem zipf_map_classifies (cm : List (String × Int))
    (hnd : (cm.map Prod.fst).Nodup) (i : Fin cm.length) :
    ∃ r, List.lookup (cm.get i).1 (build_rank_map_from_count_map cm) = some r ∧
      List.lookup (cm.get i).1 (zipf_map_of_count_map cm) =
        some (if r ≤ 20 then ZIPF_CLASS_head
              else if (cm.get i).2 < 3 then ZIPF_CLASS_tail
              else ZIPF_CLASS_body) := by
  classical
  obtain ⟨r, hr, hlkp, _⟩ := rank_lookup cm hnd i
  refine ⟨r, hlkp, ?_⟩
  have hicm : (i : Nat) < cm.length := i.isLt
  have halen : (alignedRanks cm).length = cm.length := by
    simp [alignedRanks]
  have hplen : (cm.map Prod.fst).length = cm.length := by simp
  have hsnd :
      ((cm.map Prod.fst).zip (alignedRanks cm)).map Prod.snd =
        alignedRanks cm :=
    List.map_snd_zip _ _ (by omega)
  have hzipf : zipf_map_of_count_map cm =
      (cm.map Prod.fst).zip
        (List.zipWith zipfClass (cm.map Prod.snd)
          (((cm.map Prod.fst).zip (alignedRanks cm)).map Prod.snd)) := rfl
  rw [hsnd] at hzipf
  have hclen :
      (List.zipWith zipfClass (cm.map Prod.snd) (alignedRanks cm)).length =
        cm.length := by
    simp [halen]
  have hib : (i : Nat) < (cm.map Prod.fst).length := by omega
  have hibz : (i : Nat) <
      (List.zipWith zipfClass (cm.map Prod.snd) (alignedRanks cm)).length := by
    omega
  have hlz := lookup_zip (cm.map Prod.fst)
    (List.zipWith zipfClass (cm.map Prod.snd) (alignedRanks cm)) hnd
    (i : Nat) hib hibz
  have hkey : (cm.map Prod.fst)[(i : Nat)] = (cm.get i).1 := by
    rw [List.getElem_map]
    rfl
  rw [hkey] at hlz
  rw [hzipf, hlz]
  have hic : (i : Nat) < (cm.map Prod.snd).length := by
    rw [List.length_map]
    omega
  have hia : (i : Nat) < (alignedRanks cm).length := by omega
  have hzw : (List.zipWith zipfClass (cm.map Prod.snd) (alignedRanks cm))[(i : Nat)] =
      zipfClass ((cm.map Prod.snd)[(i : Nat)]) ((alignedRanks cm)[(i : Nat)]) :=
    List.getElem_zipWith
  have h1 : (cm.map Prod.snd)[(i : Nat)] = (cm.get i).2 := by
    rw [List.getElem_map]
    rfl
  have h2 : (alignedRanks cm)[(i : Nat)] = r := by
    have hstep : (alignedRanks cm)[(i : Nat)] =
        (List.lookup (cm[(i : Nat)]).1
          (build_rank_map_from_count_map cm)).getD 0 := by
      simp only [alignedRanks, List.getElem_map]
    rw [hstep]
    have hcg : (cm[(i : Nat)]).1 = (cm.get i).1 := rfl
    rw [hcg, hlkp, Option.getD_some]
  rw [hzw, h1, h2]
  rfl

/-- C4 witness: the classification theorem applied to the one-program
count map `{A: 5}` at position 0. -/
theorem zipf_map_classifies_demo :
    ∃ r, List.lookup "A" (build_rank_map_from_count_map [("A", 5)]) = some r ∧
      List.lookup "A" (zipf_map_of_count_map [("A", 5)]) =
        some (if r ≤ 20 then ZIPF_CLASS_head
              else if (5 : Int) < 3 then ZIPF_CLASS_tail
              else ZIPF_CLASS_body) :=
  zipf_map_classifies [("A", 5)] (by decide) ⟨0, by decide⟩

/-- C5 counterexample: on the count map `{A:1, B:2, C:3, D:100}` (four
distinct programs), `A` and `B` are classified HEAD, not TAIL: with at
most 21 programs every rank is ≤ 20 and the HEAD rule overrides the
count-based TAIL rule, so the claim "A and B are TAIL" is false. -/
theorem zipf_small_corpus_not_tail :
    List.lookup "A"
        (zipf_map_of_count_map [("A", 1), ("B", 2), ("C", 3), ("D", 100)]) =
      some ZIPF_CLASS_head ∧
    List.lookup "B"
        (zipf_map_of_count_map [("A", 1), ("B", 2), ("C", 3), ("D", 100)]) =
      some ZIPF_CLASS_head ∧
    ZIPF_CLASS_head ≠ ZIPF_CLASS_tail := by decide

/-- C5 amended: on `{A:1, B:2, C:3, D:100}`, `D` has rank 0 and every one
of the four programs is classified HEAD (all ranks are ≤ 20 because there
are only four programs, and the HEAD rule overrides the TAIL rule for the
low-count `A` and `B`). -/
theorem zipf_small_corpus_all_head :
    List.lookup "D"
        (build_rank_map_from_count_map
          [("A", 1), ("B", 2), ("C", 3), ("D", 100)]) = some 0 ∧
    List.lookup "A"
        (zipf_map_of_count_map [("A", 1), ("B", 2), ("C", 3), ("D", 100)]) =
      some ZIPF_CLASS_head ∧
    List.lookup "B"
        (zipf_map_of_count_map [("A", 1), ("B", 2), ("C", 3), ("D", 100)]) =
      some ZIPF_CLASS_head ∧
    List.lookup "C"
        (zipf_map_of_count_map [("A", 1), ("B", 2), ("C", 3), ("D", 100)]) =
      some ZIPF_CLASS_head ∧
    List.lookup "D"
        (zipf_map_of_count_map [("A", 1), ("B", 2), ("C", 3), ("D", 100)]) =
      some ZIPF_CLASS_head := by decide

/-! ## Helper lemmas for count aggregation -/

/-- Unfolding `List.lookup` on a cons cell, with the boolean key test turned into a
propositional `if`. -/
theorem lookup_cons_eq {ν : Type} (a b : String) (x : ν)
    (rest : List (String × ν)) :
    List.lookup a ((b, x) :: rest) =
      if a = b then some x else List.lookup a rest := by
  by_cases h : a = b
  · subst h
    simp [List.lookup_cons]
  · have hb : (a == b) = false := by
      rw [beq_eq_false_iff_ne]
      exact h
    simp [List.lookup_cons, hb, h]

/-- Accumulating `v` at key `k` adds `v` to the defaulted lookup at `k`
and leaves every other key unchanged. -/
theorem lookupD_addToKey (m : List (String × Int)) (k : String) (v : Int)
    (s : String) :
    lookupD (addToKey m k v) s = lookupD m s + (if s = k then v else 0) := by
  induction m with
  | nil =>
    simp only [addToKey, lookupD, lookup_cons_eq, List.lookup_nil]
    split_ifs with h1
    · simp
    · simp
  | cons kv rest ih =>
    obtain ⟨k', v'⟩ := kv
    by_cases hk : k' = k
    · subst hk
      have h3 : addToKey ((k', v') :: rest) k' v = (k', v' + v) :: rest := by
        simp [addToKey]
      rw [h3]
      simp only [lookupD, lookup_cons_eq]
      split_ifs with hs
      · simp
      · simp
    · have h3 : addToKey ((k', v') :: rest) k v =
          (k', v') :: addToKey rest k v := by
        simp [addToKey, hk]
      rw [h3]
      simp only [lookupD, lookup_cons_eq]
      by_cases hs : s = k'
      · rw [if_pos hs, if_pos hs,
          if_neg (fun hh => hk (hs.symm.trans hh))]
        simp
      · rw [if_neg hs, if_neg hs]
        exact ih

/-- Invariant of the aggregation loop: when every id of the remaining
sources appears in `counts`, the loop succeeds and the defaulted lookup of
the result at any string is the accumulator's value plus the sum of the
counts of the remaining entries canonicalizing to that string. -/
theorem build_count_map_go_spec {α : Type} (canon : α → String)
    (counts : List (Nat × Int)) (sources : List (Nat × α)) :
    ∀ acc : List (String × Int),
      (∀ p ∈ sources, (List.lookup p.1 counts).isSome) →
      ∃ m, build_count_map_go canon counts sources acc = .ok m ∧
        ∀ s, lookupD m s = lookupD acc s +
          ((sources.filter fun p => canon p.2 == s).map
            fun p => (List.lookup p.1 counts).getD 0).sum := by
  induction sources with
  | nil =>
    intro acc _
    exact ⟨acc, rfl, by simp⟩
  | cons p rest ih =>
    intro acc hall
    obtain ⟨idx, ast⟩ := p
    have hhead := hall (idx, ast) (List.mem_cons_self _ _)
    obtain ⟨c, hc⟩ := Option.isSome_iff_exists.mp hhead
    have hall' : ∀ q ∈ rest, (List.lookup q.1 counts).isSome :=
      fun q hq => hall q (List.mem_cons_of_mem _ hq)
    obtain ⟨m, hm, hsum⟩ := ih (addToKey acc (canon ast) c) hall'
    refine ⟨m, ?_, ?_⟩
    · simp only [build_count_map_go, hc]
      exact hm
    · intro s
      rw [hsum s, lookupD_addToKey]
      by_cases hcs : canon ast = s
      · have hcsb : (canon ast == s) = true := by
          rw [beq_iff_eq]
          exact hcs
        have hsc : s = canon ast := hcs.symm
        simp [List.filter_cons, hcsb, hc, hsc]
        try omega
      · have hcsb : (canon ast == s) = false := by
          rw [beq_eq_false_iff_ne]
          exact hcs
        have hsc : ¬ s = canon ast := fun h => hcs h.symm
        simp [List.filter_cons, hcsb, hsc]
        try omega

/-! ## Claims about count aggregation (C7, C10) -/

/-- C7: when every id of `sources` has a count, aggregation succeeds and
assigns every canonical program string the sum of `counts[id]` over the
ids of `sources` whose AST canonicalizes to it (strings no id produces
keep the `defaultdict` value 0), and any reordering of the iteration over
`sources` yields the identical count map. -/
theorem build_count_map_sums {α : Type} (canon : α → String)
    (sources : List (Nat × α)) (counts : List (Nat × Int))
    (hall : ∀ p ∈ sources, (List.lookup p.1 counts).isSome) :
    ∃ m, build_count_map canon sources counts = .ok m ∧
      (∀ s, lookupD m s =
        ((sources.filter fun p => canon p.2 == s).map
          fun p => (List.lookup p.1 counts).getD 0).sum) ∧
      ∀ sources', List.Perm sources sources' →
        ∃ m', build_count_map canon sources' counts = .ok m' ∧
          ∀ s, lookupD m' s = lookupD m s := by
  obtain ⟨m, hm, hsum⟩ := build_count_map_go_spec canon counts sources [] hall
  have hms : ∀ s, lookupD m s =
      ((sources.filter fun p => canon p.2 == s).map
        fun p => (List.lookup p.1 counts).getD 0).sum := by
    intro s
    rw [hsum s]
    simp [lookupD]
  refine ⟨m, hm, hms, ?_⟩
  intro sources' hperm
  have hall' : ∀ p ∈ sources', (List.lookup p.1 counts).isSome :=
    fun p hp => hall p (hperm.symm.subset hp)
  obtain ⟨m', hm', hsum'⟩ :=
    build_count_map_go_spec canon counts sources' [] hall'
  refine ⟨m', hm', ?_⟩
  intro s
  have hpf : List.Perm (sources.filter fun p => canon p.2 == s)
      (sources'.filter fun p => canon p.2 == s) := hperm.filter _
  have hps := (hpf.map fun p => (List.lookup p.1 counts).getD 0).sum_eq
  rw [hsum' s, hms s, ← hps]
  simp [lookupD]

/-- C7 witness: aggregation over three sources, two of which canonicalize
to the same string, with a permuted second run. -/
theorem build_count_map_sums_demo :
    ∃ m, build_count_map (fun s : String => s) [(1, "p"), (2, "q"), (3, "p")]
        [(1, 4), (2, 5), (3, 6)] = .ok m ∧
      (∀ s, lookupD m s =
        (([(1, "p"), (2, "q"), (3, "p")].filter
            fun p => (fun s : String => s) p.2 == s).map
          fun p => (List.lookup p.1 [(1, 4), (2, 5), (3, 6)]).getD 0).sum) ∧
      ∀ sources', List.Perm [(1, "p"), (2, "q"), (3, "p")] sources' →
        ∃ m', build_count_map (fun s : String => s) sources'
            [(1, 4), (2, 5), (3, 6)] = .ok m' ∧
          ∀ s, lookupD m' s = lookupD m s :=
  build_count_map_sums (fun s : String => s) [(1, "p"), (2, "q"), (3, "p")]
    [(1, 4), (2, 5), (3, 6)] (by decide)

/-- C10: when some id of `sources` is missing from `counts`, aggregation
raises the `KeyError` of the plain dict subscript `counts[i]` instead of
treating the missing count as zero. -/
theorem build_count_map_missing_key {α : Type} (canon : α → String)
    (sources : List (Nat × α)) (counts : List (Nat × Int))
    (hmiss : ∃ p ∈ sources, List.lookup p.1 counts = none) :
    build_count_map canon sources counts = .error .keyError := by
  suffices h : ∀ src : List (Nat × α),
      (∃ p ∈ src, List.lookup p.1 counts = none) →
      ∀ acc, build_count_map_go canon counts src acc = .error .keyError from
    h sources hmiss []
  intro src
  induction src with
  | nil =>
    intro hm
    simp at hm
  | cons p rest ih =>
    intro hm acc
    obtain ⟨idx, ast⟩ := p
    rcases hlk : List.lookup idx counts with _ | c
    · simp [build_count_map_go, hlk]
    · simp only [build_count_map_go, hlk]
      obtain ⟨q, hq, hqnone⟩ := hm
      rcases List.mem_cons.mp hq with hqp | hqrest
      · subst hqp
        simp only at hqnone
        rw [hqnone] at hlk
        exact Option.noConfusion hlk
      · exact ih ⟨q, hqrest, hqnone⟩ _

/-- C10 witness: id 2 of the sources has no entry in the counts dict, so
aggregation fails with the `KeyError`-equivalent. -/
theorem build_count_map_missing_key_demo :
    (∃ p ∈ [(1, "p"), (2, "q")], List.lookup p.1 [(1, (4 : Int))] = none) ∧
      build_count_map (fun s : String => s) [(1, "p"), (2, "q")]
        [(1, 4)] = .error .keyError :=
  ⟨by decide,
    build_count_map_missing_key (fun s : String => s) [(1, "p"), (2, "q")]
      [(1, 4)] (by decide)⟩

/-! ## Helper lemmas for `__getitem__` (C9) -/

/-- Indices outside `[-len, len)` raise `IndexError`. -/
theorem pyGet_oob {β : Type} (l : List β) (i : Int)
    (h : i < -(l.length : Int) ∨ (l.length : Int) ≤ i) :
    pyGet l i = .error .indexError := by
  unfold pyGet
  rw [dif_neg]
  simp only [pyWrap]
  split_ifs with hneg
  · omega
  · omega

/-- A negative in-range index addresses from the end, exactly like the
corresponding nonnegative index. -/
theorem pyGet_neg {β : Type} (l : List β) (i : Int)
    (hge : -(l.length : Int) ≤ i) (hlt : i < 0) :
    pyGet l i = pyGet l (i + l.length) := by
  have hw1 : pyWrap l.length i = i + l.length := by
    simp only [pyWrap]
    rw [if_pos hlt]
  have hw2 : pyWrap l.length (i + l.length) = i + l.length := by
    simp only [pyWrap]
    rw [if_neg (by omega)]
  by_cases hc : 0 ≤ i + (l.length : Int) ∧ i + (l.length : Int) < l.length
  · unfold pyGet
    rw [dif_pos (by rw [hw1]; exact hc), dif_pos (by rw [hw2]; exact hc)]
    have hv : (pyWrap l.length i).toNat = (pyWrap l.length (i + l.length)).toNat := by
      rw [hw1, hw2]
    exact congrArg Except.ok (congrArg l.get (Fin.ext hv))
  · unfold pyGet
    rw [dif_neg (by rw [hw1]; exact hc), dif_neg (by rw [hw2]; exact hc)]

/-- A nonnegative in-range index fetches the element at that position. -/
theorem pyGet_ok {β : Type} (l : List β) (i : Int) (h0 : 0 ≤ i)
    (hlt : i.toNat < l.length) :
    pyGet l i = .ok l[i.toNat] := by
  have hw : pyWrap l.length i = i := by
    simp only [pyWrap]
    rw [if_neg (by omega)]
  unfold pyGet
  rw [dif_pos (by rw [hw]; constructor <;> omega)]
  have hv : (pyWrap l.length i).toNat = i.toNat := by rw [hw]
  exact congrArg Except.ok (congrArg l.get (Fin.ext hv))

/-! ## Claim about record retrieval (C9) -/

/-- C9 counterexample: on a one-record dataset, `get(-1)` — an index
outside `[0, size())` — succeeds via Python negative indexing instead of
raising `IndexError`, and on a dataset whose raw program string is not a
key of the zipf map, `get(0)` — an index inside `[0, size())` — raises
`KeyError` instead of returning the record. -/
theorem getitem_boundary_counterexample :
    (CodeOrgDataset.getitem
        ⟨[[2, 4, 3]], [3], ["x"], [("x", ZIPF_CLASS_body)], none⟩ (-1) =
      .ok ([2, 4, 3], 3, none, ZIPF_CLASS_body)) ∧
    (CodeOrgDataset.size
        ⟨[[2, 4, 3]], [3], ["x"], [("x", ZIPF_CLASS_body)], none⟩ = 1) ∧
    (CodeOrgDataset.getitem ⟨[[2, 4, 3]], [3], ["x"], [], none⟩ 0 =
      .error .keyError) :=
  ⟨rfl, rfl, rfl⟩

/-- C9 amended: on a constructed dataset (parallel `sequences`, `lengths`
and `raw_programs` arrays; `labels` absent, as `process_labels` makes any
labelled construction unreachable), `get(index)` raises `IndexError`
exactly when `index < -size` or `index ≥ size`; an index in `[-size, 0)`
is Python-wrapped to `index + size`; and an index in `[0, size)` returns a
record provided the raw program string at that position is a key of the
zipf map (otherwise the lookup raises `KeyError`). -/
theorem getitem_bounds (ds : CodeOrgDataset)
    (h1 : ds.lengths.length = ds.size) (h2 : ds.raw_programs.length = ds.size)
    (h3 : ds.labels = none) (index : Int) :
    ((index < -(ds.size : Int) ∨ (ds.size : Int) ≤ index) →
      ds.getitem index = .error .indexError) ∧
    ((-(ds.size : Int) ≤ index ∧ index < 0) →
      ds.getitem index = ds.getitem (index + ds.size)) ∧
    (∀ (h0 : 0 ≤ index) (hlt : index < (ds.size : Int)),
      (List.lookup (ds.raw_programs.getD index.toNat "")
          ds.zipf_map).isSome →
      ∃ out, ds.getitem index = .ok out) := by
  have hsz : ds.size = ds.sequences.length := rfl
  refine ⟨?_, ?_, ?_⟩
  · intro h
    unfold CodeOrgDataset.getitem
    rw [pyGet_oob ds.sequences index (by rw [hsz] at h; exact h)]
  · rintro ⟨hge, hlt0⟩
    unfold CodeOrgDataset.getitem
    rw [pyGet_neg ds.sequences index hge hlt0,
      pyGet_neg ds.lengths index (by rw [h1]; exact hge) hlt0,
      pyGet_neg ds.raw_programs index (by rw [h2]; exact hge) hlt0,
      h1, h2, h3, hsz]
  · intro h0 hlt hz
    obtain ⟨z, hzv⟩ := Option.isSome_iff_exists.mp hz
    have hts : index.toNat < ds.sequences.length := by
      rw [hsz] at hlt
      omega
    have htl : index.toNat < ds.lengths.length := by
      rw [h1, hsz]
      omega
    have htp : index.toNat < ds.raw_programs.length := by
      rw [h2, hsz]
      omega
    have hgd : ds.raw_programs.getD index.toNat "" =
        ds.raw_programs[index.toNat] := by
      rw [List.getD_eq_getElem?_getD, List.getElem?_eq_getElem htp,
        Option.getD_some]
    rw [hgd] at hzv
    unfold CodeOrgDataset.getitem
    rw [pyGet_ok ds.sequences index h0 hts, pyGet_ok ds.lengths index h0 htl,
      pyGet_ok ds.raw_programs index h0 htp, h3]
    dsimp only
    rw [hzv]
    exact ⟨_, rfl⟩

/-- C9 amended witness: the bounds theorem applied to a concrete
one-record dataset at index 0 (in particular, the record exists). -/
theorem getitem_bounds_demo :
    ((0 : Int) < -((CodeOrgDataset.size
          ⟨[[2, 4, 3]], [3], ["x"], [("x", ZIPF_CLASS_body)], none⟩ : Nat) : Int) ∨
      ((CodeOrgDataset.size
          ⟨[[2, 4, 3]], [3], ["x"], [("x", ZIPF_CLASS_body)], none⟩ : Nat) : Int) ≤ 0 →
      CodeOrgDataset.getitem
        ⟨[[2, 4, 3]], [3], ["x"], [("x", ZIPF_CLASS_body)], none⟩ 0 =
        .error .indexError) ∧
    ((-(((CodeOrgDataset.size
          ⟨[[2, 4, 3]], [3], ["x"], [("x", ZIPF_CLASS_body)], none⟩ : Nat)) : Int) ≤ 0 ∧
        (0 : Int) < 0) →
      CodeOrgDataset.getitem
        ⟨[[2, 4, 3]], [3], ["x"], [("x", ZIPF_CLASS_body)], none⟩ 0 =
      CodeOrgDataset.getitem
        ⟨[[2, 4, 3]], [3], ["x"], [("x", ZIPF_CLASS_body)], none⟩
        (0 + (CodeOrgDataset.size
          ⟨[[2, 4, 3]], [3], ["x"], [("x", ZIPF_CLASS_body)], none⟩ : Nat))) ∧
    (∀ (h0 : (0 : Int) ≤ 0)
      (hlt : (0 : Int) < ((CodeOrgDataset.size
        ⟨[[2, 4, 3]], [3], ["x"], [("x", ZIPF_CLASS_body)], none⟩ : Nat) : Int)),
      (List.lookup (List.getD
          (CodeOrgDataset.raw_programs
            ⟨[[2, 4, 3]], [3], ["x"], [("x", ZIPF_CLASS_body)], none⟩)
          (Int.toNat 0) "")
        (CodeOrgDataset.zipf_map
          ⟨[[2, 4, 3]], [3], ["x"], [("x", ZIPF_CLASS_body)], none⟩)).isSome →
      ∃ out, CodeOrgDataset.getitem
        ⟨[[2, 4, 3]], [3], ["x"], [("x", ZIPF_CLASS_body)], none⟩ 0 =
        .ok out) :=
  getitem_bounds ⟨[[2, 4, 3]], [3], ["x"], [("x", ZIPF_CLASS_body)], none⟩
    rfl rfl rfl 0

end RubricSampling
